import Mathlib

/-!
Verification of the deterministic pipeline core of `multi_tts_workflow.py`
(segmentation, data combination, same-speaker merging, synthesis dispatch,
and workflow orchestration).

Python strings are modelled as `List Char`; Python dicts of the fixed shapes
used by the pipeline are modelled as structures.  A dict key that may be
absent is modelled with an outer `Option` (`none` = key absent).  Functions
that can raise return `Except`; the workflow and the dispatcher additionally
return the list of externally visible events (oracle calls, file writes)
performed before returning or raising, so that ordering of errors relative
to oracle calls is expressible.  The three LLM oracles are non-deterministic
external collaborators: their parsed replies are supplied as parameters
(fields of `WorkflowEnv`), and each call is recorded as an event.
-/

/-- Python strings, modelled as lists of characters. -/
abbrev Str := List Char

/-- Python `str.strip()` whitespace set (ASCII part; the pipeline only tests
    strip-emptiness, i.e. presence of a non-whitespace character). -/
def pyIsSpace (c : Char) : Bool :=
  c.toNat = 32 || c.toNat = 9 || c.toNat = 10 || c.toNat = 13 ||
  c.toNat = 11 || c.toNat = 12

/-- Truthiness of `segment.strip()` in `novel_segmentation`: the segment
    contains at least one non-whitespace character. -/
def stripNonempty (s : Str) : Bool :=
  s.any (fun c => !(pyIsSpace c))

/-- The break test `re.search(r"\d|[一-鿿]|[a-zA-Z]", segment)` on one
    character: an ASCII decimal digit, a CJK ideograph, or a Latin letter. -/
def isBreakChar (c : Char) : Bool :=
  (48 ≤ c.toNat && c.toNat ≤ 57) ||
  (0x4e00 ≤ c.toNat && c.toNat ≤ 0x9fff) ||
  (97 ≤ c.toNat && c.toNat ≤ 122) ||
  (65 ≤ c.toNat && c.toNat ≤ 90)

/-- `re.search(r"\d|[一-鿿]|[a-zA-Z]", s)` succeeds. -/
def hasBreak (s : Str) : Bool :=
  s.any isBreakChar

/-- Python `s.replace("\n", "")`. -/
def stripNL (s : Str) : Str :=
  s.filter (fun c => !(c == '\n'))

/-- `re.split(f"({pattern})", s)` for the character class built from the
    punctuation set: split on every punctuation character, keeping each such
    character as its own token (empty tokens appear between adjacent
    delimiters and at the ends, as with Python `re.split`). -/
def splitKeep (punct : Str) : Str → List Str
  | [] => [[]]
  | c :: rest =>
    if c ∈ punct then
      [] :: [c] :: splitKeep punct rest
    else
      match splitKeep punct rest with
      | [] => [[c]]
      | t :: ts => (c :: t) :: ts

/-- `processed_segments[-1] += segment`: append `s` to the last element of the
    list; `none` models the `IndexError` raised when the list is empty. -/
def appendLast : List Str → Str → Option (List Str)
  | [], _ => none
  | [a], s => some [a ++ s]
  | a :: b :: rest, s => (appendLast (b :: rest) s).map (fun acc => a :: acc)

/-- Errors `novel_segmentation` can raise: the `KeyError` for a missing
    `SEGMENTATION_PUNCTUATION` key, the `re.error` raised when the
    punctuation string is empty (pattern `([])` fails to compile), and the
    `IndexError` from `processed_segments[-1]` on an empty list. -/
inductive SegErr where
  | keyError
  | regexError
  | indexError
deriving DecidableEq

/-- A resolved voice descriptor as built by `_create_voice_info`:
    `voice` is `none` when the label was absent from the catalog
    (Python `None`). -/
structure VoiceInfo where
  voice_name : Str
  voice_source : Str
  voice : Option Str
deriving DecidableEq

/-- A pipeline record dict.  `segment_id`/`content` are always present;
    `speaker`/`voice_info` use an outer `Option` for key presence (the
    Segmenter creates records without those keys; `combine_data` adds them by
    in-place mutation). -/
structure PyRec where
  segment_id : Nat
  content : Str
  speaker : Option (Option Str)
  voice_info : Option (Option VoiceInfo)
deriving DecidableEq

/-- The body of the `for segment in segments:` loop of `novel_segmentation`,
    walking split tokens left to right: whitespace-only tokens are skipped,
    tokens containing a digit / CJK ideograph / Latin letter start a new
    output segment, and any other token is appended to the previous output
    segment (raising `IndexError` when there is none). -/
def processSegments (acc : List Str) : List Str → Except SegErr (List Str)
  | [] => .ok acc
  | seg :: rest =>
    if stripNonempty seg then
      if hasBreak seg then
        processSegments (acc ++ [seg]) rest
      else
        match appendLast acc seg with
        | none => .error .indexError
        | some acc2 => processSegments acc2 rest
    else
      processSegments acc rest

/-- The final `for idx, segment_content in enumerate(processed_segments):`
    loop: number the processed segments from `i`, skipping falsy (empty)
    contents without reusing their index. -/
def buildResult (i : Nat) : List Str → List PyRec
  | [] => []
  | s :: rest =>
    if s = [] then buildResult (i + 1) rest
    else ⟨i, s, none, none⟩ :: buildResult (i + 1) rest

/-- `novel_segmentation(text)`.  The configuration value
    `config["SEGMENTATION_PUNCTUATION"]` is passed explicitly: `none` models
    a missing key (`KeyError`); an empty value makes the regex pattern `([])`
    fail to compile (`re.error`).  Newlines are removed from the text before
    splitting. -/
def novel_segmentation (cfgPunct : Option Str) (text : Str) :
    Except SegErr (List PyRec) :=
  match cfgPunct with
  | none => .error .keyError
  | some punct =>
    if punct = [] then .error .regexError
    else
      match processSegments [] (splitKeep punct (stripNL text)) with
      | .error e => .error e
      | .ok processed => .ok (buildResult 0 processed)

/-- A SpeakerAssignment dict `{segment_id, speaker}` (the speaker value may
    be JSON `null`, modelled as `none`). -/
structure SpeakerRec where
  segment_id : Nat
  speaker : Option Str
deriving DecidableEq

/-- A voice match info dict `{role_id, name, voice_info}` as produced by
    `match_voices` (and, for the combiner's claims, arbitrary). -/
structure VoiceMatchRec where
  role_id : Int
  name : Option Str
  voice_info : Option VoiceInfo
deriving DecidableEq

/-- Result of `combine_data`, as a state-passing embedding: the post-call
    contents of the three argument lists together with the returned list.
    The Python function mutates each segment dict in place (adding the
    `speaker` and `voice_info` keys) and appends that same dict to the
    returned list, so `segments_after` and `result` hold the same records;
    `speaker_list` and `voice_match_info_list` are never written. -/
structure CombineOut where
  segments_after : List PyRec
  speaker_list_after : List SpeakerRec
  voice_list_after : List VoiceMatchRec
  result : List PyRec
deriving DecidableEq

/-- The `for segment in segments:` loop of `combine_data`: look up the first
    speaker assignment with the segment's id (`None` on a miss), then the
    first voice match whose `name` equals that speaker (`None` on a miss),
    and set both keys on the segment record. -/
def combineGo (speaker_list : List SpeakerRec)
    (voice_match_info_list : List VoiceMatchRec) : List PyRec → List PyRec
  | [] => []
  | seg :: rest =>
    let speaker :=
      (speaker_list.find? (fun item => item.segment_id == seg.segment_id)).bind
        (fun item => item.speaker)
    let voice_info :=
      (voice_match_info_list.find? (fun item => item.name == speaker)).bind
        (fun item => item.voice_info)
    ⟨seg.segment_id, seg.content, some speaker, some voice_info⟩ ::
      combineGo speaker_list voice_match_info_list rest

/-- `combine_data(segments, speaker_list, voice_match_info_list)`: the
    returned list holds exactly the (mutated) input segment records, so the
    post-call `segments` list and the result coincide. -/
def combine_data (segments : List PyRec) (speaker_list : List SpeakerRec)
    (voice_match_info_list : List VoiceMatchRec) : CombineOut :=
  let combined := combineGo speaker_list voice_match_info_list segments
  ⟨combined, speaker_list, voice_match_info_list, combined⟩

/-- Spec-side helper: the speaker of the first assignment carrying the given
    segment id (`none` when there is none or its speaker is null). -/
def firstSpeakerFor : List SpeakerRec → Nat → Option Str
  | [], _ => none
  | item :: rest, sid =>
    if item.segment_id = sid then item.speaker else firstSpeakerFor rest sid

/-- Spec-side helper: the voice_info of the first voice match whose `name`
    equals the given speaker (`none` when there is none or it is null). -/
def firstVoiceFor : List VoiceMatchRec → Option Str → Option VoiceInfo
  | [], _ => none
  | item :: rest, sp =>
    if item.name = sp then item.voice_info else firstVoiceFor rest sp

/-- A CombinedRecord with all four keys present, as consumed by
    `integrate_same_speaker` and `tts_generation`. -/
structure CRec where
  segment_id : Nat
  content : Str
  speaker : Option Str
  voice_info : Option VoiceInfo
deriving DecidableEq

/-- View of a combined record with both added keys present (the shape
    `combine_data` always produces; accessing a missing key would be a
    `KeyError` in Python and is unreachable in the pipeline). -/
def asCRec (r : PyRec) : CRec :=
  ⟨r.segment_id, r.content, r.speaker.getD none, r.voice_info.getD none⟩

/-- The loop of `integrate_same_speaker`, carrying the output list built so
    far, `last_segment_speaker` (initially the empty string),
    `last_voice_info` (initially the empty dict `{}`, modelled as the outer
    `none`; it can never reach an emitted record because every flush requires
    previously accumulated content), and `combile_content`.  A mid-stream
    flush strips newlines from the accumulated content; the final flush after
    the loop does not. -/
def integrateGo : List CRec → List CRec → Option Str →
    Option (Option VoiceInfo) → Str → List CRec
  | [], acc, lastSp, lastVI, buf =>
    if buf = [] then acc
    else acc ++ [⟨acc.length, buf, lastSp, lastVI.getD none⟩]
  | item :: rest, acc, lastSp, lastVI, buf =>
    if item.speaker = lastSp then
      integrateGo rest acc item.speaker (some item.voice_info)
        (buf ++ item.content)
    else
      let acc2 :=
        if buf = [] then acc
        else acc ++ [⟨acc.length, stripNL buf, lastSp, lastVI.getD none⟩]
      integrateGo rest acc2 item.speaker (some item.voice_info) item.content

/-- `integrate_same_speaker(combined_data)`. -/
def integrate_same_speaker (combined_data : List CRec) : List CRec :=
  integrateGo combined_data [] (some []) none []

/-- Spec-side helper for `speakerRuns`: given the record `x` that opened the
    current run and the remaining records, return the rest of `x`'s run and
    the later runs.  Only `x.speaker` is consulted. -/
def speakerRunsCore : List CRec → CRec → List CRec × List (List CRec)
  | [], _ => ([], [])
  | y :: ys, x =>
    if y.speaker = x.speaker then
      ((y :: (speakerRunsCore ys y).1), (speakerRunsCore ys y).2)
    else
      ([], (y :: (speakerRunsCore ys y).1) :: (speakerRunsCore ys y).2)

/-- Spec-side: maximal runs of consecutive records sharing one speaker. -/
def speakerRuns : List CRec → List (List CRec)
  | [] => []
  | x :: xs => (x :: (speakerRunsCore xs x).1) :: (speakerRunsCore xs x).2

/-- Ordered concatenation of the contents of a run. -/
def concatContents : List CRec → Str
  | [] => []
  | r :: rest => r.content ++ concatContents rest

/-- The speaker shared by a run (its head's speaker). -/
def runSpeaker : List CRec → Option Str
  | [] => none
  | r :: _ => r.speaker

/-- The voice_info carried out of a run (its last record's voice_info, which
    is what `last_voice_info` holds at flush time). -/
def runVoice : List CRec → Option VoiceInfo
  | [] => none
  | [r] => r.voice_info
  | _ :: r :: rest => runVoice (r :: rest)

/-- Spec-side rendering of runs into merged records: dense ids from `i`, the
    run's concatenated content with newlines removed — except for the final
    run, which is flushed after the loop without newline removal. -/
def mergeRuns (i : Nat) : List (List CRec) → List CRec
  | [] => []
  | [r] => [⟨i, concatContents r, runSpeaker r, runVoice r⟩]
  | r :: rs =>
    ⟨i, stripNL (concatContents r), runSpeaker r, runVoice r⟩ ::
      mergeRuns (i + 1) rs

/-- Bridge between the imperative loop and the run rendering: the loop state
    `(buf, sp, vi)` is the partially accumulated current run. -/
def mergeSpecGo : List CRec → Nat → Str → Option Str → Option VoiceInfo →
    List CRec
  | [], i, buf, sp, vi => [⟨i, buf, sp, vi⟩]
  | x :: xs, i, buf, sp, vi =>
    if x.speaker = sp then
      mergeSpecGo xs i (buf ++ x.content) sp x.voice_info
    else
      ⟨i, stripNL buf, sp, vi⟩ ::
        mergeSpecGo xs (i + 1) x.content x.speaker x.voice_info

/-- Renumber records with dense ids starting at `i`, all else unchanged. -/
def renumber (i : Nat) : List CRec → List CRec
  | [] => []
  | r :: rest => ⟨i, r.content, r.speaker, r.voice_info⟩ :: renumber (i + 1) rest

/-- Every record's speaker differs from both of its neighbors. -/
def adjacentDistinct : List CRec → Prop
  | x :: y :: rest => x.speaker ≠ y.speaker ∧ adjacentDistinct (y :: rest)
  | _ => True

/-- A token of the split that `novel_segmentation` must append to a previous
    segment: it survives the strip test but contains no digit, CJK ideograph,
    or Latin letter (pure punctuation). -/
def purePunctToken (s : Str) : Bool :=
  stripNonempty s && !(hasBreak s)

/-- The hypothesis of the implicit safety claim, read off its wording: each
    pure-punctuation token is preceded by some token containing a digit, CJK
    ideograph, or Latin letter.  `seen` records whether such a token has
    occurred yet. -/
def safeTokens (seen : Bool) : List Str → Bool
  | [] => true
  | s :: rest =>
    if purePunctToken s && !seen then false
    else safeTokens (seen || hasBreak s) rest

/-- An entry of `minimax_voice_list.json` (fields the code reads). -/
structure MinimaxEntry where
  voice_name : Str
  voice_id : Str
  description : Str
deriving DecidableEq

/-- An entry of `doubao_voice_list.json` (fields the code reads). -/
structure DoubaoEntry where
  character_name : Str
  voice_type : Str
  category : Str
deriving DecidableEq

/-- One item of the voice-matching oracle's reply:
    `{role_id, name, voice_name}`. -/
structure VMatchItem where
  role_id : Int
  name : Option Str
  voice_name : Str
deriving DecidableEq

/-- `MinimaxVoiceMatcher._create_voice_info`: reverse lookup of the oracle's
    label in the raw catalog; the handle is the `voice_id` of the first entry
    with that `voice_name`, or `None` when absent.  Total — it never
    raises. -/
def MinimaxVoiceMatcher.create_voice_info (voice_match_item : VMatchItem)
    (raw_voice_list : List MinimaxEntry) : VoiceInfo :=
  ⟨voice_match_item.voice_name, "minimax".data,
    (raw_voice_list.find?
        (fun voice => voice.voice_name == voice_match_item.voice_name)).map
      (fun voice => voice.voice_id)⟩

/-- `DoubaoVoiceMatcher._create_voice_info`: as above with `character_name`
    as the resolution key and `voice_type` as the handle. -/
def DoubaoVoiceMatcher.create_voice_info (voice_match_item : VMatchItem)
    (raw_voice_list : List DoubaoEntry) : VoiceInfo :=
  ⟨voice_match_item.voice_name, "doubao".data,
    (raw_voice_list.find?
        (fun voice => voice.character_name == voice_match_item.voice_name)).map
      (fun voice => voice.voice_type)⟩

/-- Spec-side helper: the first minimax catalog entry carrying the label. -/
def firstMinimaxMatch (label : Str) : List MinimaxEntry → Option MinimaxEntry
  | [] => none
  | e :: rest => if e.voice_name = label then some e else firstMinimaxMatch label rest

/-- Spec-side helper: the first doubao catalog entry carrying the label. -/
def firstDoubaoMatch (label : Str) : List DoubaoEntry → Option DoubaoEntry
  | [] => none
  | e :: rest => if e.character_name = label then some e else firstDoubaoMatch label rest

/-- Externally visible actions of a pipeline run, in order of occurrence.
    Prompt-template and catalog file reads are not recorded (they are local,
    not oracle calls). -/
inductive Event where
  | roleOracle
  | voiceMatchOracle
  | speakerOracle
  | mkdir (floder_name : Str)
  | ttsOracle (text : Str) (voice_source : Str) (voice : Option Str)
  | fileWrite (floder_name : Str) (segment_id : Nat)
deriving DecidableEq

/-- Exceptions the modelled pipeline stages can raise. -/
inductive WErr where
  | valueError
  | segKeyError
  | segRegexError
  | segIndexError
  | typeError
deriving DecidableEq

/-- Whether an event is a call to one of the external oracles. -/
def isOracleEvent : Event → Bool
  | .roleOracle => true
  | .voiceMatchOracle => true
  | .speakerOracle => true
  | .ttsOracle _ _ _ => true
  | _ => false

/-- The loop of `tts_generation`: for each record, evaluate
    `item["voice_info"]["voice_source"]` — a `TypeError` when `voice_info` is
    `None`, raised before the synthesis call for that record — then call the
    TTS oracle and write `{segment_id}.mp3`.  Returns the events performed
    before returning or raising, and the raised error if any. -/
def ttsGo (floder_name : Str) : List CRec → List Event × Option WErr
  | [] => ([], none)
  | item :: rest =>
    match item.voice_info with
    | none => ([], some .typeError)
    | some vi =>
      let out := ttsGo floder_name rest
      (Event.ttsOracle item.content vi.voice_source vi.voice ::
        Event.fileWrite floder_name item.segment_id :: out.1, out.2)

/-- `tts_generation(integrated_data, floder_name)`: create the output
    directory, then dispatch strictly sequentially. -/
def tts_generation (integrated_data : List CRec) (floder_name : Str) :
    List Event × Option WErr :=
  let out := ttsGo floder_name integrated_data
  (Event.mkdir floder_name :: out.1, out.2)

/-- Spec-side: the events of a normal (non-raising) dispatch of one
    record. -/
def recordEvents (floder_name : Str) (r : CRec) : List Event :=
  match r.voice_info with
  | none => []
  | some vi =>
    [Event.ttsOracle r.content vi.voice_source vi.voice,
     Event.fileWrite floder_name r.segment_id]

/-- Spec-side: the events of a normal dispatch of a record sequence. -/
def dispatchTrace (floder_name : Str) : List CRec → List Event
  | [] => []
  | r :: rest => recordEvents floder_name r ++ dispatchTrace floder_name rest

/-- A role record returned by the role-identification oracle. -/
structure RoleRec where
  role_id : Int
  name : Str
  description : Str
deriving DecidableEq

/-- The environment of one workflow run: the configured punctuation set and
    the parsed replies of the external oracles (which are black boxes whose
    outputs the pipeline cannot predict). -/
structure WorkflowEnv where
  cfgPunct : Option Str
  role_list : List RoleRec
  minimaxCatalog : List MinimaxEntry
  doubaoCatalog : List DoubaoEntry
  minimaxMatch : List VMatchItem
  doubaoMatch : List VMatchItem
  speaker_list : List SpeakerRec
deriving DecidableEq

/-- `MinimaxVoiceMatcher().match_voices(role_list)`: the catalog is loaded
    and projected, the voice-matching oracle is called, and each reply item
    is resolved against the raw catalog. -/
def matchVoicesMinimax (env : WorkflowEnv) : List VoiceMatchRec :=
  env.minimaxMatch.map (fun item =>
    ⟨item.role_id, item.name,
      some (MinimaxVoiceMatcher.create_voice_info item env.minimaxCatalog)⟩)

/-- `DoubaoVoiceMatcher().match_voices(role_list)`. -/
def matchVoicesDoubao (env : WorkflowEnv) : List VoiceMatchRec :=
  env.doubaoMatch.map (fun item =>
    ⟨item.role_id, item.name,
      some (DoubaoVoiceMatcher.create_voice_info item env.doubaoCatalog)⟩)

/-- Translate a segmentation error into the workflow's error type. -/
def segErrToW : SegErr → WErr
  | .keyError => .segKeyError
  | .regexError => .segRegexError
  | .indexError => .segIndexError

/-- Steps 3–7 of the workflow: segmentation, speaker identification,
    combination, merging, dispatch. -/
def workflowRest (env : WorkflowEnv) (text floder_name : Str)
    (ev : List Event) (voice_match_info_list : List VoiceMatchRec) :
    List Event × Option WErr :=
  match novel_segmentation env.cfgPunct text with
  | .error e => (ev, some (segErrToW e))
  | .ok segments =>
    let ev2 := ev ++ [Event.speakerOracle]
    let combined :=
      (combine_data segments env.speaker_list voice_match_info_list).result
    let integrated := integrate_same_speaker (combined.map asCRec)
    let out := tts_generation integrated floder_name
    (ev2 ++ out.1, out.2)

/-- `multi_tts_workflow(text, floder_name, tts_llm)`: step 1 calls the
    role-identification oracle; step 2 selects the voice matcher (calling the
    voice-matching oracle) or raises `ValueError` for an unrecognized
    selector; then steps 3–7 run. -/
def multi_tts_workflow (env : WorkflowEnv) (text floder_name tts_llm : Str) :
    List Event × Option WErr :=
  let ev1 := [Event.roleOracle]
  if tts_llm = "minimax".data then
    workflowRest env text floder_name (ev1 ++ [Event.voiceMatchOracle])
      (matchVoicesMinimax env)
  else if tts_llm = "doubao".data then
    workflowRest env text floder_name (ev1 ++ [Event.voiceMatchOracle])
      (matchVoicesDoubao env)
  else
    (ev1, some .valueError)

/-! ### Lemmas about the Segmenter -/

lemma break_not_space (c : Char) (h : isBreakChar c = true) :
    pyIsSpace c = false := by
  simp only [isBreakChar, Bool.or_eq_true, Bool.and_eq_true,
    decide_eq_true_eq] at h
  simp only [pyIsSpace, Bool.or_eq_false_iff, decide_eq_false_iff_not]
  omega

lemma hasBreak_stripNonempty {s : Str} (h : hasBreak s = true) :
    stripNonempty s = true := by
  simp only [hasBreak, List.any_eq_true] at h
  obtain ⟨c, hc, hb⟩ := h
  simp only [stripNonempty, List.any_eq_true]
  exact ⟨c, hc, by simp [break_not_space c hb]⟩

lemma stripNonempty_ne_nil {s : Str} (h : stripNonempty s = true) : s ≠ [] := by
  intro he
  subst he
  simp [stripNonempty] at h

lemma stripNonempty_append_right {a s : Str} (h : stripNonempty a = true) :
    stripNonempty (a ++ s) = true := by
  simp only [stripNonempty, List.any_append, Bool.or_eq_true] at *
  exact Or.inl h

lemma appendLast_isSome (acc : List Str) (s : Str) (h : acc ≠ []) :
    ∃ acc2, appendLast acc s = some acc2 := by
  induction acc with
  | nil => exact absurd rfl h
  | cons a tail ih =>
    cases tail with
    | nil => exact ⟨[a ++ s], rfl⟩
    | cons b rest =>
      obtain ⟨acc2, h2⟩ := ih (by simp)
      exact ⟨a :: acc2, by simp [appendLast, h2]⟩

lemma appendLast_ne_nil {acc : List Str} {s : Str} {acc2 : List Str}
    (h : appendLast acc s = some acc2) : acc2 ≠ [] := by
  induction acc generalizing acc2 with
  | nil => simp [appendLast] at h
  | cons a tail ih =>
    cases tail with
    | nil =>
      simp only [appendLast, Option.some.injEq] at h
      simp [← h]
    | cons b rest =>
      simp only [appendLast, Option.map_eq_some'] at h
      obtain ⟨acc3, _, h4⟩ := h
      simp [← h4]

lemma appendLast_strip {acc : List Str} {s : Str} {acc2 : List Str}
    (h : appendLast acc s = some acc2)
    (hall : ∀ x ∈ acc, stripNonempty x = true) :
    ∀ x ∈ acc2, stripNonempty x = true := by
  induction acc generalizing acc2 with
  | nil => simp [appendLast] at h
  | cons a tail ih =>
    cases tail with
    | nil =>
      simp only [appendLast, Option.some.injEq] at h
      subst h
      intro x hx
      simp only [List.mem_singleton] at hx
      subst hx
      exact stripNonempty_append_right (hall a (by simp))
    | cons b rest =>
      simp only [appendLast, Option.map_eq_some'] at h
      obtain ⟨acc3, h3, h4⟩ := h
      subst h4
      intro x hx
      rcases List.mem_cons.mp hx with hx | hx
      · subst hx
        exact hall x (by simp)
      · exact ih h3 (fun y hy => hall y (List.mem_cons_of_mem _ hy)) x hx

lemma processSegments_ok_strip {toks : List Str} {acc out : List Str}
    (hacc : ∀ s ∈ acc, stripNonempty s = true)
    (h : processSegments acc toks = .ok out) :
    ∀ s ∈ out, stripNonempty s = true := by
  induction toks generalizing acc with
  | nil =>
    simp only [processSegments, Except.ok.injEq] at h
    subst h
    exact hacc
  | cons seg rest ih =>
    simp only [processSegments] at h
    by_cases hs : stripNonempty seg
    · rw [if_pos hs] at h
      by_cases hb : hasBreak seg
      · rw [if_pos hb] at h
        refine ih ?_ h
        intro x hx
        rcases List.mem_append.mp hx with hx | hx
        · exact hacc x hx
        · simp only [List.mem_singleton] at hx
          subst hx
          exact hs
      · rw [if_neg hb] at h
        cases hap : appendLast acc seg with
        | none => rw [hap] at h; exact absurd h (by simp)
        | some acc2 =>
          rw [hap] at h
          exact ih (appendLast_strip hap hacc) h
    · rw [if_neg hs] at h
      exact ih hacc h

lemma buildResult_of_strip {l : List Str} (i : Nat)
    (hall : ∀ s ∈ l, stripNonempty s = true) :
    (buildResult i l).map (fun r => r.segment_id) = List.range' i l.length ∧
    ∀ r ∈ buildResult i l, stripNonempty r.content = true := by
  induction l generalizing i with
  | nil => simp [buildResult, List.range']
  | cons s rest ih =>
    have hs : stripNonempty s = true := hall s (by simp)
    have hrest : ∀ x ∈ rest, stripNonempty x = true :=
      fun x hx => hall x (List.mem_cons_of_mem _ hx)
    obtain ⟨ih1, ih2⟩ := ih (i + 1) hrest
    constructor
    · simp only [buildResult, if_neg (stripNonempty_ne_nil hs), List.map_cons,
        List.length_cons, List.range'_succ]
      rw [ih1]
    · intro r hr
      simp only [buildResult, if_neg (stripNonempty_ne_nil hs)] at hr
      rcases List.mem_cons.mp hr with hr | hr
      · subst hr; exact hs
      · exact ih2 r hr

lemma processSegments_safe {toks : List Str} {acc : List Str} {seen : Bool}
    (hinv : seen = true → acc ≠ [])
    (hsafe : safeTokens seen toks = true) :
    ∃ out, processSegments acc toks = .ok out := by
  induction toks generalizing acc seen with
  | nil => exact ⟨acc, rfl⟩
  | cons seg rest ih =>
    simp only [safeTokens] at hsafe
    by_cases hcond : purePunctToken seg && !seen
    · rw [if_pos hcond] at hsafe
      exact absurd hsafe (by simp)
    · rw [if_neg hcond] at hsafe
      simp only [processSegments]
      by_cases hs : stripNonempty seg
      · rw [if_pos hs]
        by_cases hb : hasBreak seg
        · rw [if_pos hb]
          exact @ih _ (seen || hasBreak seg) (fun _ => by simp) hsafe
        · rw [if_neg hb]
          have hpp : purePunctToken seg = true := by
            simp [purePunctToken, hs, hb]
          have hseen : seen = true := by
            by_contra hns
            simp only [Bool.not_eq_true] at hns
            subst hns
            simp [hpp] at hcond
          obtain ⟨acc2, hap⟩ := appendLast_isSome acc seg (hinv hseen)
          rw [hap]
          exact @ih _ (seen || hasBreak seg)
            (fun _ => appendLast_ne_nil hap) hsafe
      · rw [if_neg hs]
        have hnb : hasBreak seg = false := by
          by_contra hc
          simp only [Bool.not_eq_false] at hc
          exact absurd (hasBreak_stripNonempty hc) (by simp [hs])
        rw [hnb] at hsafe
        simp only [Bool.or_false] at hsafe
        exact ih hinv hsafe

/-- Claim C9: for every input text, an absent punctuation configuration makes
    `novel_segmentation` raise `KeyError`, and an empty one makes the regex
    pattern fail to compile; in both cases the Segmenter invocation raises a
    configuration error (and contacts no oracle: segmentation performs no
    oracle call at all — its embedding emits no events). -/
theorem C9_segmenter_config_error (text : Str) :
    novel_segmentation none text = .error .keyError ∧
    novel_segmentation (some []) text = .error .regexError :=
  ⟨rfl, rfl⟩

/-- Claim C1 (amended): for every non-empty text and non-empty punctuation
    set, whenever `novel_segmentation` returns a sequence (it can instead
    raise `IndexError`, see the counterexample), the segment ids are dense
    `0..n-1` in walk order and no content is empty or whitespace-only. -/
theorem C1_segmenter_dense_ids_nonblank (punct text : Str) (segs : List PyRec)
    (hp : punct ≠ []) (_ht : text ≠ [])
    (h : novel_segmentation (some punct) text = .ok segs) :
    segs.map (fun r => r.segment_id) = List.range segs.length ∧
    ∀ r ∈ segs, stripNonempty r.content = true := by
  simp only [novel_segmentation, if_neg hp] at h
  cases hps : processSegments [] (splitKeep punct (stripNL text)) with
  | error e => rw [hps] at h; exact absurd h (by simp)
  | ok processed =>
    rw [hps] at h
    simp only [Except.ok.injEq] at h
    subst h
    have hstrip : ∀ s ∈ processed, stripNonempty s = true :=
      processSegments_ok_strip (by simp) hps
    obtain ⟨h1, h2⟩ := buildResult_of_strip 0 hstrip
    refine ⟨?_, h2⟩
    have hlen : (buildResult 0 processed).length = processed.length := by
      have := congrArg List.length h1
      simpa using this
    rw [h1, List.range_eq_range', hlen]

/-- Claim C1 counterexample: with punctuation `。` and the non-empty text
    `。abc`, `novel_segmentation` raises `IndexError` instead of returning a
    segment sequence, so the claim as stated (which asserts a sequence is
    returned for every non-empty text and punctuation set) is false. -/
theorem C1_counterexample_index_error :
    novel_segmentation (some "。".data) "。abc".data = .error .indexError := by
  rfl

/-- Claim C10: splitting `。hi` on punctuation `。` makes the first
    non-whitespace token pure punctuation and `novel_segmentation` raises
    `IndexError` (appending to the last element of an empty list); and for
    every punctuation set and text whose split tokens satisfy the guard that
    each pure-punctuation token is preceded by a token containing a digit,
    CJK ideograph, or Latin letter, segmentation returns normally. -/
theorem C10_index_error_and_guard :
    novel_segmentation (some "。".data) "。hi".data = .error .indexError ∧
    ∀ punct text : Str, punct ≠ [] →
      safeTokens false (splitKeep punct (stripNL text)) = true →
      ∃ segs, novel_segmentation (some punct) text = .ok segs := by
  constructor
  · rfl
  · intro punct text hp hsafe
    obtain ⟨out, hout⟩ := @processSegments_safe _ [] false (by simp) hsafe
    exact ⟨buildResult 0 out, by simp [novel_segmentation, if_neg hp, hout]⟩

/-- Witness for C1: a concrete run that returns normally, with dense ids and
    non-blank contents. -/
theorem C1_witness :
    ([⟨0, "ab。".data, none, none⟩, ⟨1, "cd。".data, none, none⟩] :
        List PyRec).map (fun r => r.segment_id) =
      List.range ([⟨0, "ab。".data, none, none⟩,
        ⟨1, "cd。".data, none, none⟩] : List PyRec).length ∧
    ∀ r ∈ ([⟨0, "ab。".data, none, none⟩, ⟨1, "cd。".data, none, none⟩] :
        List PyRec), stripNonempty r.content = true :=
  C1_segmenter_dense_ids_nonblank "。".data "ab。cd。".data _
    (by decide) (by decide) (by rfl)

/-- Witness for C10: a concrete guarded input on which segmentation returns
    normally. -/
theorem C10_witness :
    ∃ segs, novel_segmentation (some "。".data) "ab。cd".data = .ok segs :=
  C10_index_error_and_guard.2 "。".data "ab。cd".data (by decide) (by decide)

/-! ### Lemmas about voice resolution -/

lemma find?_minimax_eq_first (label : Str) (raw : List MinimaxEntry) :
    raw.find? (fun voice => voice.voice_name == label) =
      firstMinimaxMatch label raw := by
  induction raw with
  | nil => rfl
  | cons e rest ih =>
    by_cases h : e.voice_name = label
    · simp [List.find?, firstMinimaxMatch, h]
    · have hb : (e.voice_name == label) = false := by simpa using h
      simp [List.find?, hb, firstMinimaxMatch, if_neg h, ih]

lemma find?_doubao_eq_first (label : Str) (raw : List DoubaoEntry) :
    raw.find? (fun voice => voice.character_name == label) =
      firstDoubaoMatch label raw := by
  induction raw with
  | nil => rfl
  | cons e rest ih =>
    by_cases h : e.character_name = label
    · simp [List.find?, firstDoubaoMatch, h]
    · have hb : (e.character_name == label) = false := by simpa using h
      simp [List.find?, hb, firstDoubaoMatch, if_neg h, ih]

lemma firstMinimaxMatch_eq_none (label : Str) (raw : List MinimaxEntry)
    (h : ∀ e ∈ raw, e.voice_name ≠ label) : firstMinimaxMatch label raw = none := by
  induction raw with
  | nil => rfl
  | cons e rest ih =>
    simp only [firstMinimaxMatch, if_neg (h e (by simp))]
    exact ih fun x hx => h x (List.mem_cons_of_mem _ hx)

lemma firstDoubaoMatch_eq_none (label : Str) (raw : List DoubaoEntry)
    (h : ∀ e ∈ raw, e.character_name ≠ label) :
    firstDoubaoMatch label raw = none := by
  induction raw with
  | nil => rfl
  | cons e rest ih =>
    simp only [firstDoubaoMatch, if_neg (h e (by simp))]
    exact ih fun x hx => h x (List.mem_cons_of_mem _ hx)

/-- Claim C8: in both provider matchers, `_create_voice_info` resolves the
    oracle's label to the handle of the first catalog entry carrying it, and
    to a null handle when no entry does; both functions are total (they never
    raise). -/
theorem C8_voice_resolution (item : VMatchItem) (rawM : List MinimaxEntry)
    (rawD : List DoubaoEntry) :
    (MinimaxVoiceMatcher.create_voice_info item rawM).voice =
      (firstMinimaxMatch item.voice_name rawM).map (fun e => e.voice_id) ∧
    ((∀ e ∈ rawM, e.voice_name ≠ item.voice_name) →
      (MinimaxVoiceMatcher.create_voice_info item rawM).voice = none) ∧
    (DoubaoVoiceMatcher.create_voice_info item rawD).voice =
      (firstDoubaoMatch item.voice_name rawD).map (fun e => e.voice_type) ∧
    ((∀ e ∈ rawD, e.character_name ≠ item.voice_name) →
      (DoubaoVoiceMatcher.create_voice_info item rawD).voice = none) := by
  refine ⟨?_, ?_, ?_, ?_⟩
  · simp [MinimaxVoiceMatcher.create_voice_info, find?_minimax_eq_first]
  · intro h
    simp [MinimaxVoiceMatcher.create_voice_info, find?_minimax_eq_first,
      firstMinimaxMatch_eq_none _ _ h]
  · simp [DoubaoVoiceMatcher.create_voice_info, find?_doubao_eq_first]
  · intro h
    simp [DoubaoVoiceMatcher.create_voice_info, find?_doubao_eq_first,
      firstDoubaoMatch_eq_none _ _ h]

/-- Witness for C8: a two-entry catalog where the label matches the first
    matching entry, and an absent label resolving to a null handle. -/
theorem C8_witness :
    (MinimaxVoiceMatcher.create_voice_info ⟨1, some "r".data, "v".data⟩
      [⟨"u".data, "id0".data, "d0".data⟩, ⟨"v".data, "id1".data, "d1".data⟩]).voice =
      (firstMinimaxMatch "v".data
        [⟨"u".data, "id0".data, "d0".data⟩,
         ⟨"v".data, "id1".data, "d1".data⟩]).map (fun e => e.voice_id) ∧
    (DoubaoVoiceMatcher.create_voice_info ⟨1, some "r".data, "v".data⟩
      [⟨"w".data, "t0".data, "c0".data⟩]).voice = none :=
  ⟨(C8_voice_resolution ⟨1, some "r".data, "v".data⟩
      [⟨"u".data, "id0".data, "d0".data⟩, ⟨"v".data, "id1".data, "d1".data⟩]
      []).1,
   (C8_voice_resolution ⟨1, some "r".data, "v".data⟩ []
      [⟨"w".data, "t0".data, "c0".data⟩]).2.2.2 (by decide)⟩

/-! ### Lemmas about the Combiner -/

lemma find?_speaker_eq_first (spl : List SpeakerRec) (sid : Nat) :
    (spl.find? (fun item => item.segment_id == sid)).bind
        (fun item => item.speaker) =
      firstSpeakerFor spl sid := by
  induction spl with
  | nil => rfl
  | cons item rest ih =>
    by_cases h : item.segment_id = sid
    · simp [List.find?, firstSpeakerFor, h]
    · have hb : (item.segment_id == sid) = false := by simpa using h
      simp [List.find?, hb, firstSpeakerFor, if_neg h, ih]

lemma find?_voice_eq_first (vl : List VoiceMatchRec) (sp : Option Str) :
    (vl.find? (fun item => item.name == sp)).bind (fun item => item.voice_info) =
      firstVoiceFor vl sp := by
  induction vl with
  | nil => rfl
  | cons item rest ih =>
    by_cases h : item.name = sp
    · simp [List.find?, firstVoiceFor, h]
    · have hb : (item.name == sp) = false := by simpa using h
      simp [List.find?, hb, firstVoiceFor, if_neg h, ih]

lemma combineGo_eq_map (spl : List SpeakerRec) (vl : List VoiceMatchRec)
    (segments : List PyRec) :
    combineGo spl vl segments = segments.map (fun seg =>
      ⟨seg.segment_id, seg.content,
        some (firstSpeakerFor spl seg.segment_id),
        some (firstVoiceFor vl (firstSpeakerFor spl seg.segment_id))⟩) := by
  induction segments with
  | nil => rfl
  | cons seg rest ih =>
    simp only [combineGo, List.map_cons, find?_speaker_eq_first,
      find?_voice_eq_first, ih]

/-- Claim C5: `combine_data` produces exactly one combined record per input
    segment, in segment order; its speaker is the speaker of the first
    assignment with matching `segment_id` (null on a miss) and its voice_info
    is the voice_info of the first voice match whose `name` equals that
    speaker (null on a miss), however many lookups miss. -/
theorem C5_combiner_totality (segments : List PyRec)
    (speaker_list : List SpeakerRec) (voice_match_info_list : List VoiceMatchRec) :
    (combine_data segments speaker_list voice_match_info_list).result =
      segments.map (fun seg =>
        ⟨seg.segment_id, seg.content,
          some (firstSpeakerFor speaker_list seg.segment_id),
          some (firstVoiceFor voice_match_info_list
            (firstSpeakerFor speaker_list seg.segment_id))⟩) ∧
    (combine_data segments speaker_list voice_match_info_list).result.length =
      segments.length := by
  refine ⟨combineGo_eq_map _ _ _, ?_⟩
  simp [combine_data, combineGo_eq_map]

/-- Claim C3 counterexample: on a concrete input the `segments` argument does
    not hold the same records after the call — each record was mutated in
    place (the `speaker` and `voice_info` keys were added) — so the claimed
    absence of side effects is false. -/
theorem C3_counterexample_mutation :
    (combine_data [⟨0, "hi".data, none, none⟩] [] []).segments_after ≠
      [⟨0, "hi".data, none, none⟩] := by
  decide

/-- Claim C3 (amended): `combine_data` leaves `speaker_list` and
    `voice_match_info_list` unchanged, but mutates every input segment record
    in place, setting its `speaker` and `voice_info` keys; the returned
    sequence holds exactly those mutated input records (the post-call
    `segments` argument and the result coincide). -/
theorem C3_combiner_effects (segments : List PyRec)
    (speaker_list : List SpeakerRec) (voice_match_info_list : List VoiceMatchRec) :
    (combine_data segments speaker_list voice_match_info_list).speaker_list_after =
      speaker_list ∧
    (combine_data segments speaker_list voice_match_info_list).voice_list_after =
      voice_match_info_list ∧
    (combine_data segments speaker_list voice_match_info_list).segments_after =
      (combine_data segments speaker_list voice_match_info_list).result ∧
    ∀ r ∈ (combine_data segments speaker_list voice_match_info_list).segments_after,
      r.speaker ≠ none ∧ r.voice_info ≠ none := by
  refine ⟨rfl, rfl, rfl, ?_⟩
  intro r hr
  simp only [combine_data, combineGo_eq_map, List.mem_map] at hr
  obtain ⟨seg, _, hEq⟩ := hr
  subst hEq
  exact ⟨by simp, by simp⟩

/-! ### Lemmas about the Run-Length Merger -/

lemma integrate_entry (x : CRec) (xs : List CRec) :
    integrate_same_speaker (x :: xs) =
      integrateGo xs [] x.speaker (some x.voice_info) x.content := by
  by_cases h : x.speaker = some ([] : Str)
  · simp [integrate_same_speaker, integrateGo, h]
  · simp [integrate_same_speaker, integrateGo, h]

lemma integrateGo_eq_mergeSpecGo {l : List CRec} {acc : List CRec}
    {sp : Option Str} {vi : Option VoiceInfo} {buf : Str}
    (hbuf : buf ≠ []) (hl : ∀ r ∈ l, r.content ≠ []) :
    integrateGo l acc sp (some vi) buf =
      acc ++ mergeSpecGo l acc.length buf sp vi := by
  induction l generalizing acc sp vi buf with
  | nil =>
    simp [integrateGo, mergeSpecGo, if_neg hbuf]
  | cons x xs ih =>
    by_cases h : x.speaker = sp
    · have hbuf2 : buf ++ x.content ≠ [] := by
        simp [hbuf]
      simp only [integrateGo, mergeSpecGo, if_pos h]
      rw [ih hbuf2 (fun r hr => hl r (List.mem_cons_of_mem _ hr)), h]
    · have hx : x.content ≠ [] := hl x (by simp)
      simp only [integrateGo, mergeSpecGo, if_neg h, if_neg hbuf,
        Option.getD_some]
      rw [ih hx (fun r hr => hl r (List.mem_cons_of_mem _ hr))]
      simp [List.append_assoc]
lemma speakerRunsCore_congr (xs : List CRec) {x1 x2 : CRec}
    (h : x1.speaker = x2.speaker) :
    speakerRunsCore xs x1 = speakerRunsCore xs x2 := by
  cases xs with
  | nil => rfl
  | cons y ys => simp only [speakerRunsCore, h]

lemma concatContents_append (a b : List CRec) :
    concatContents (a ++ b) = concatContents a ++ concatContents b := by
  induction a with
  | nil => rfl
  | cons r rest ih => simp [concatContents, ih]

lemma runVoice_cons_cons (v y : CRec) (l : List CRec) :
    runVoice (v :: y :: l) = runVoice (y :: l) := rfl

lemma mergeRuns_first_congr {r1 r2 : List CRec}
    (hc : concatContents r1 = concatContents r2)
    (hs : runSpeaker r1 = runSpeaker r2) (hv : runVoice r1 = runVoice r2)
    (i : Nat) (rs : List (List CRec)) :
    mergeRuns i (r1 :: rs) = mergeRuns i (r2 :: rs) := by
  cases rs with
  | nil => simp [mergeRuns, hc, hs, hv]
  | cons r3 rs3 => simp [mergeRuns, hc, hs, hv]

lemma runVoice_absorb (v y : CRec) (a : List CRec) (c : Str) (s : Option Str) :
    runVoice (v :: y :: a) = runVoice (⟨0, c, s, y.voice_info⟩ :: a) := by
  cases a with
  | nil => rfl
  | cons b t => rfl

lemma mergeSpecGo_eq_mergeRuns (xs : List CRec) :
    ∀ (i : Nat) (buf : Str) (sp : Option Str) (vi : Option VoiceInfo),
    mergeSpecGo xs i buf sp vi =
      mergeRuns i (speakerRuns (⟨0, buf, sp, vi⟩ :: xs)) := by
  induction xs with
  | nil =>
    intro i buf sp vi
    simp [mergeSpecGo, speakerRuns, speakerRunsCore, mergeRuns, concatContents,
      runSpeaker, runVoice]
  | cons y ys ih =>
    intro i buf sp vi
    by_cases h : y.speaker = sp
    · have hcore : speakerRunsCore (y :: ys) (⟨0, buf, sp, vi⟩ : CRec) =
          ((y :: (speakerRunsCore ys y).1), (speakerRunsCore ys y).2) := by
        simp only [speakerRunsCore]
        rw [if_pos h]
      have hcore2 : speakerRunsCore ys (⟨0, buf ++ y.content, sp, y.voice_info⟩ :
          CRec) = speakerRunsCore ys y :=
        speakerRunsCore_congr ys (by simpa using h.symm)
      simp only [mergeSpecGo, if_pos h, ih, speakerRuns, hcore, hcore2]
      refine mergeRuns_first_congr ?_ ?_ ?_ i _
      · simp [concatContents, List.append_assoc]
      · rfl
      · exact (runVoice_absorb _ _ _ _ _).symm
    · have hcore : speakerRunsCore (y :: ys) (⟨0, buf, sp, vi⟩ : CRec) =
          ([], (y :: (speakerRunsCore ys y).1) :: (speakerRunsCore ys y).2) := by
        simp only [speakerRunsCore]
        rw [if_neg h]
      have hcore2 : speakerRunsCore ys (⟨0, y.content, y.speaker, y.voice_info⟩ :
          CRec) = speakerRunsCore ys y :=
        speakerRunsCore_congr ys rfl
      simp only [mergeSpecGo, if_neg h, ih, speakerRuns, hcore, hcore2]
      have htail : mergeRuns (i + 1)
          ((⟨0, y.content, y.speaker, y.voice_info⟩ ::
              (speakerRunsCore ys y).1) :: (speakerRunsCore ys y).2) =
          mergeRuns (i + 1)
            ((y :: (speakerRunsCore ys y).1) :: (speakerRunsCore ys y).2) := by
        refine mergeRuns_first_congr ?_ ?_ ?_ _ _
        · simp [concatContents]
        · rfl
        · cases hcr : (speakerRunsCore ys y).1 with
          | nil => rfl
          | cons b t => rfl
      rw [htail]
      simp [mergeRuns, concatContents, runSpeaker, runVoice, stripNL]

lemma integrate_eq_mergeRuns {l : List CRec} (hl : ∀ r ∈ l, r.content ≠ []) :
    integrate_same_speaker l = mergeRuns 0 (speakerRuns l) := by
  cases l with
  | nil => rfl
  | cons x xs =>
    rw [integrate_entry,
      integrateGo_eq_mergeSpecGo (hl x (by simp))
        (fun r hr => hl r (List.mem_cons_of_mem _ hr)),
      mergeSpecGo_eq_mergeRuns]
    simp only [List.nil_append, List.length_nil, speakerRuns]
    rw [@speakerRunsCore_congr xs (⟨0, x.content, x.speaker,
      x.voice_info⟩ : CRec) x rfl]
    refine mergeRuns_first_congr ?_ ?_ ?_ 0 _
    · simp [concatContents]
    · rfl
    · cases hcr : (speakerRunsCore xs x).1 with
      | nil => rfl
      | cons b t => rfl

/-- Claim C2 (amended): for every CombinedRecord sequence whose records all
    have non-empty content, the Merger emits exactly one MergedRecord per
    maximal run of consecutive records sharing one speaker, in run order with
    dense ids, whose content is the ordered concatenation of the run's
    contents with embedded newlines removed — except that the final emitted
    record (flushed after the loop) retains embedded newlines.  (Runs of
    empty contents can vanish, and the final run keeps newlines: see the
    counterexample.) -/
theorem C2_merger_runs (l : List CRec) (hl : ∀ r ∈ l, r.content ≠ []) :
    integrate_same_speaker l = mergeRuns 0 (speakerRuns l) :=
  integrate_eq_mergeRuns hl

/-- Claim C2 counterexample: a single-record run whose content carries a
    newline is merged with the newline retained (the claim demands its
    removal); and a single-record run with empty content produces no record
    at all (the claim demands exactly one). -/
theorem C2_counterexample_newline_and_empty :
    integrate_same_speaker [⟨0, "x\ny".data, some "a".data, none⟩] =
      [⟨0, "x\ny".data, some "a".data, none⟩] ∧
    "x\ny".data ≠ stripNL "x\ny".data ∧
    integrate_same_speaker [⟨3, [], some "a".data, none⟩] = [] := by
  refine ⟨by decide, by decide, by decide⟩

/-- Witness for C2: a concrete three-record sequence with two runs. -/
theorem C2_witness :
    integrate_same_speaker
        [⟨0, "x".data, some "a".data, none⟩,
         ⟨1, "y".data, some "a".data, none⟩,
         ⟨2, "z".data, some "b".data, none⟩] =
      mergeRuns 0 (speakerRuns
        [⟨0, "x".data, some "a".data, none⟩,
         ⟨1, "y".data, some "a".data, none⟩,
         ⟨2, "z".data, some "b".data, none⟩]) :=
  C2_merger_runs _ (by decide)

lemma runs_cons_of_distinct {x : CRec} {xs : List CRec}
    (h : adjacentDistinct (x :: xs)) :
    speakerRuns (x :: xs) = [x] :: speakerRuns xs := by
  cases xs with
  | nil => rfl
  | cons y rest =>
    obtain ⟨hxy, _⟩ := h
    have hne : ¬(y.speaker = x.speaker) := fun hc => hxy hc.symm
    simp only [speakerRuns, speakerRunsCore]
    rw [if_neg hne]

lemma adjacentDistinct_tail {x : CRec} {xs : List CRec}
    (h : adjacentDistinct (x :: xs)) : adjacentDistinct xs := by
  cases xs with
  | nil => trivial
  | cons y rest => exact h.2

lemma adjacent_runs {l : List CRec} (h : adjacentDistinct l) :
    speakerRuns l = l.map (fun r => [r]) := by
  induction l with
  | nil => rfl
  | cons x xs ih =>
    rw [runs_cons_of_distinct h, ih (adjacentDistinct_tail h)]
    rfl

lemma mergeRuns_singletons (l : List CRec) (i : Nat)
    (h : ∀ r ∈ l, stripNL r.content = r.content) :
    mergeRuns i (l.map (fun r => [r])) = renumber i l := by
  induction l generalizing i with
  | nil => rfl
  | cons x xs ih =>
    cases xs with
    | nil =>
      simp [mergeRuns, renumber, concatContents, runSpeaker, runVoice]
    | cons y rest =>
      have hx : stripNL x.content = x.content := h x (by simp)
      simp only [List.map_cons, mergeRuns, renumber, List.cons.injEq]
      constructor
      · simp [concatContents, runSpeaker, runVoice, hx]
      · exact ih (i + 1) (fun r hr => h r (List.mem_cons_of_mem _ hr))

lemma ids_snoc {acc : List CRec} (c : Str) (s : Option Str)
    (v : Option VoiceInfo)
    (h : acc.map (fun r => r.segment_id) = List.range acc.length) :
    (acc ++ [(⟨acc.length, c, s, v⟩ : CRec)]).map (fun r => r.segment_id) =
      List.range (acc ++ [(⟨acc.length, c, s, v⟩ : CRec)]).length := by
  simp [List.map_append, h, List.range_succ]

lemma integrateGo_ids (l : List CRec) :
    ∀ (acc : List CRec) (sp : Option Str) (vi : Option (Option VoiceInfo))
      (buf : Str),
    acc.map (fun r => r.segment_id) = List.range acc.length →
    (integrateGo l acc sp vi buf).map (fun r => r.segment_id) =
      List.range (integrateGo l acc sp vi buf).length := by
  induction l with
  | nil =>
    intro acc sp vi buf h
    by_cases hbuf : buf = []
    · simpa [integrateGo, if_pos hbuf] using h
    · simpa [integrateGo, if_neg hbuf] using
        ids_snoc buf sp (vi.getD none) h
  | cons x xs ih =>
    intro acc sp vi buf h
    by_cases hsp : x.speaker = sp
    · simp only [integrateGo, if_pos hsp]
      exact ih _ _ _ _ h
    · simp only [integrateGo, if_neg hsp]
      by_cases hbuf : buf = []
      · rw [if_pos hbuf]
        exact ih _ _ _ _ h
      · rw [if_neg hbuf]
        exact ih _ _ _ _ (ids_snoc (stripNL buf) sp (vi.getD none) h)

/-- Claim C6 (amended): if every record's speaker differs from its neighbors
    and every content is non-empty and newline-free, the merged sequence is
    the input with ids densely renumbered from 0 and all other fields
    unchanged; and, unconditionally, output ids are dense and 0-based in
    output order.  (Without the content hypotheses, empty-content records
    vanish and newlines are stripped from all but the last record: see the
    counterexample.) -/
theorem C6_merger_noop_iso :
    (∀ l : List CRec, adjacentDistinct l →
      (∀ r ∈ l, r.content ≠ [] ∧ stripNL r.content = r.content) →
      integrate_same_speaker l = renumber 0 l) ∧
    (∀ l : List CRec,
      (integrate_same_speaker l).map (fun r => r.segment_id) =
        List.range (integrate_same_speaker l).length) := by
  constructor
  · intro l hadj hl
    rw [integrate_eq_mergeRuns (fun r hr => (hl r hr).1), adjacent_runs hadj,
      mergeRuns_singletons l 0 (fun r hr => (hl r hr).2)]
  · intro l
    exact integrateGo_ids l [] (some []) none [] (by simp)

/-- Claim C6 counterexample: two records with distinct speakers, the first
    containing a newline — the merged first record's content is changed
    (newline stripped), so the output is not isomorphic to the input; and a
    single record with empty content yields an empty output (length
    changes). -/
theorem C6_counterexample_not_iso :
    integrate_same_speaker
        [⟨0, "a\nb".data, some "s".data, none⟩,
         ⟨1, "c".data, some "t".data, none⟩] =
      [⟨0, "ab".data, some "s".data, none⟩,
       ⟨1, "c".data, some "t".data, none⟩] ∧
    "ab".data ≠ "a\nb".data ∧
    integrate_same_speaker [⟨0, [], some "s".data, none⟩] = [] := by
  refine ⟨by decide, by decide, by decide⟩

/-- Witness for C6: a concrete no-op input merged isomorphically. -/
theorem C6_witness :
    integrate_same_speaker
        [⟨4, "x".data, some "a".data, none⟩,
         ⟨9, "y".data, some "b".data, none⟩] =
      renumber 0
        [⟨4, "x".data, some "a".data, none⟩,
         ⟨9, "y".data, some "b".data, none⟩] :=
  C6_merger_noop_iso.1 _ ⟨by decide, trivial⟩ (by decide)

/-! ### Lemmas about the Synthesis Dispatcher and the workflow -/

lemma ttsGo_abort {floder_name : Str} {pre : List CRec} {item : CRec}
    (post : List CRec) (hitem : item.voice_info = none)
    (hpre : ∀ r ∈ pre, r.voice_info ≠ none) :
    ttsGo floder_name (pre ++ item :: post) =
      (dispatchTrace floder_name pre, some .typeError) := by
  induction pre with
  | nil =>
    simp [ttsGo, hitem, dispatchTrace]
  | cons r rest ih =>
    obtain ⟨vi, hvi⟩ := Option.ne_none_iff_exists'.mp (hpre r (by simp))
    have ihr := ih (fun x hx => hpre x (List.mem_cons_of_mem _ hx))
    simp only [List.cons_append, ttsGo, hvi]
    rw [show rest.append (item :: post) = rest ++ item :: post from rfl, ihr]
    simp [dispatchTrace, recordEvents, hvi]

/-- Claim C7: for every merged-record sequence whose first record with
    `voice_info = None` appears after `pre`, the dispatcher raises
    (`TypeError`, on evaluating `item["voice_info"]["voice_source"]`) at that
    record before its synthesis call; every record of `pre` is dispatched
    normally (one synthesis call and one file write, in order), and no
    synthesis or file write is attempted for the failing record or any later
    record. -/
theorem C7_dispatch_aborts (floder_name : Str) (pre : List CRec) (item : CRec)
    (post : List CRec) (hitem : item.voice_info = none)
    (hpre : ∀ r ∈ pre, r.voice_info ≠ none) :
    tts_generation (pre ++ item :: post) floder_name =
      (Event.mkdir floder_name :: dispatchTrace floder_name pre,
        some .typeError) := by
  simp [tts_generation, ttsGo_abort post hitem hpre]

/-- Witness for C7: a concrete dispatch that aborts at the second record,
    after the first was synthesized and written. -/
theorem C7_witness :
    tts_generation
        [⟨0, "a".data, some "s".data,
            some ⟨"v".data, "minimax".data, some "id".data⟩⟩,
         ⟨1, "b".data, some "t".data, none⟩,
         ⟨2, "c".data, some "u".data,
            some ⟨"w".data, "minimax".data, some "id2".data⟩⟩]
        "out".data =
      (Event.mkdir "out".data ::
        dispatchTrace "out".data
          [⟨0, "a".data, some "s".data,
              some ⟨"v".data, "minimax".data, some "id".data⟩⟩],
        some .typeError) :=
  C7_dispatch_aborts "out".data
    [⟨0, "a".data, some "s".data,
        some ⟨"v".data, "minimax".data, some "id".data⟩⟩]
    ⟨1, "b".data, some "t".data, none⟩
    [⟨2, "c".data, some "u".data,
        some ⟨"w".data, "minimax".data, some "id2".data⟩⟩]
    (by decide) (by decide)

/-- Claim C4 (amended): for every environment, text and output folder, an
    unrecognized provider selector makes the workflow raise `ValueError` —
    but only after the role-identification oracle call of step 1, and before
    the voice-matching, speaker, and synthesis oracles and before
    segmentation: the event trace at the raise is exactly one role-oracle
    call. -/
theorem C4_unknown_selector (env : WorkflowEnv) (text floder_name : Str)
    (tts_llm : Str) (h1 : tts_llm ≠ "minimax".data)
    (h2 : tts_llm ≠ "doubao".data) :
    multi_tts_workflow env text floder_name tts_llm =
      ([Event.roleOracle], some .valueError) := by
  simp [multi_tts_workflow, h1, h2]

/-- Claim C4 counterexample: on a concrete run with the unrecognized selector
    `gpt`, the `ValueError` is raised only after an oracle call has already
    been made (the role-identification oracle), so the claim that the error
    precedes every oracle call is false. -/
theorem C4_counterexample_oracle_before_error :
    (multi_tts_workflow ⟨none, [], [], [], [], [], []⟩ "ab".data "out".data
        "gpt".data).2 = some .valueError ∧
    (multi_tts_workflow ⟨none, [], [], [], [], [], []⟩ "ab".data "out".data
        "gpt".data).1.any isOracleEvent = true := by
  refine ⟨by decide, by decide⟩

/-- Witness for C4: the amended behavior at a concrete environment and
    selector. -/
theorem C4_witness :
    multi_tts_workflow ⟨some "。".data, [], [], [], [], [], []⟩ "ab".data
        "out".data "other".data =
      ([Event.roleOracle], some .valueError) :=
  C4_unknown_selector _ _ _ _ (by decide) (by decide)
